import Mathlib

/-! RingBufferQueue (src/ring_buffer_queue/main.cpp)

A shallow embedding of the class template `RingBufferQueue<T>` and a sequential
verification of its operations.

Modelling conventions.

* The `int` fields `front`, `rear`, `count`, `capacity` are natural numbers: no
  operation makes `front`, `rear` or `count` negative, and `capacity` never changes.
  The one object this leaves out, a queue constructed with a negative `capacity`, is
  reported by `construct` as `Constructed.builtNegative`.
* `int` is 32 bits wide.  The one `int` computation that can leave the range on an
  argument the constructor can be given is `capacity * 5` (line 11); `wrapInt32` gives
  its two's-complement value.  The arithmetic of `enqueue` and `dequeue` stays in range
  on every run considered here.
* `buffer` is the heap array allocated by the constructor, a list with as many slots
  as the `int` value of `capacity * 5`.  `new T[n]` does not give the slots a specified
  value, so the initial contents are a parameter `mem` (slot `i` starts as `mem i`).
* A call has one of three outcomes: it returns, it throws, or it runs into behaviour
  that C++ leaves undefined (an index outside the allocated array, `% 0`).  A throw
  leaves the object in the state reached at the `throw` statement.
* `enqueue` throws `std::overflow("FRONT TOUCHING REAR!!!")`; the tests catch
  `std::overflow_error`.  Both are the one error `QueueError.overflow` here.
-/

namespace RingBuffer

/-- The two exceptions thrown by the queue: `overflow` by `enqueue`, `underflow`
(`std::underflow_error("Queue is empty")`) by `dequeue`. -/
inductive QueueError where
  | overflow
  | underflow
  deriving DecidableEq

/-- How a call ends: it returns a value, throws, or hits undefined behaviour. -/
inductive Outcome (β : Type) where
  | returned (b : β)
  | raised (e : QueueError)
  | undefined
  deriving DecidableEq

/-- The data members of `RingBufferQueue<T>` (main.cpp lines 52-57). -/
structure RingBufferQueue (α : Type) where
  buffer : List α
  front : Nat
  rear : Nat
  count : Nat
  capacity : Nat
  deriving DecidableEq

/-- The value of an `int` computation whose exact result is `x`: the two's-complement
representative of `x` in the 32-bit range `-2147483648 .. 2147483647`. -/
def wrapInt32 (x : Int) : Int := (x + 2147483648) % 4294967296 - 2147483648

/-- How the constructor ends: `new T[...]` throws and no object exists; or an object is
built.  An object built with a negative `capacity` (possible only when `capacity * 5`
wraps to a non-negative `int`) has a field that `RingBufferQueue` cannot hold; it is
recorded by its capacity and its number of slots. -/
inductive Constructed (α : Type) where
  | threw
  | built (q : RingBufferQueue α)
  | builtNegative (capacity : Int) (slots : Nat)
  deriving DecidableEq

namespace RingBufferQueue

variable {α : Type}

/-- State left by the constructor (lines 10-12) for a `capacity` whose `capacity * 5`
is computed without overflow (`0 ≤ capacity ≤ 429496729`):
`capacity(capacity), front(0), rear(0), count(0)` and `buffer = new T[capacity * 5]`.
For every other argument see `construct`. -/
def fresh (capacity : Nat) (mem : Nat → α) : RingBufferQueue α :=
  { buffer := (List.range (capacity * 5)).map mem
    front := 0
    rear := 0
    count := 0
    capacity := capacity }

/-- The constructor `RingBufferQueue(int capacity)` (lines 10-12):
`capacity(capacity), front(0), rear(0), count(0)` and `buffer = new T[capacity * 5]`.
The product is an `int`; `new T[n]` throws `std::bad_array_new_length` for a negative
`n` and allocates `n` slots otherwise.  There is no other check on `capacity`, which,
being an `int`, is an argument in the 32-bit range. -/
def construct (capacity : Int) (mem : Nat → α) : Constructed α :=
  if wrapInt32 (capacity * 5) < 0 then Constructed.threw
  else if capacity < 0 then
    Constructed.builtNegative capacity (wrapInt32 (capacity * 5)).toNat
  else
    Constructed.built
      { buffer := (List.range (wrapInt32 (capacity * 5)).toNat).map mem
        front := 0
        rear := 0
        count := 0
        capacity := capacity.toNat }

/-- Source `isFull()` (lines 40-42): `return count == capacity;`. -/
def isFull (q : RingBufferQueue α) : Bool := q.count == q.capacity

/-- Source `isEmpty()` (lines 44-46): `return count == 0;`. -/
def isEmpty (q : RingBufferQueue α) : Bool := q.count == 0

/-- Source `size()` (lines 48-50): `return count;`. -/
def size (q : RingBufferQueue α) : Nat := q.count

/-- Source `enqueue(T item)` (lines 18-28):
```
buffer[rear] = item;
rear = (rear + 1) % capacity;
if (front == rear) { throw std::overflow("FRONT TOUCHING REAR!!!") }
++count;
```
The write and the advance of `rear` come before the test, so the state paired with
`raised overflow` already has both. -/
def enqueue (q : RingBufferQueue α) (item : α) : RingBufferQueue α × Outcome Unit :=
  if q.rear < q.buffer.length then
    let q1 := { q with buffer := q.buffer.set q.rear item }
    if q1.capacity = 0 then (q1, Outcome.undefined)
    else
      let q2 := { q1 with rear := (q1.rear + 1) % q1.capacity }
      if q2.front = q2.rear then (q2, Outcome.raised QueueError.overflow)
      else ({ q2 with count := q2.count + 1 }, Outcome.returned ())
  else (q, Outcome.undefined)

/-- Source `dequeue()` (lines 30-38):
```
if (isEmpty()) { throw std::underflow_error("Queue is empty"); }
T item = buffer[front];
front = (front + 1) % capacity;
--count;
return item;
``` -/
def dequeue (q : RingBufferQueue α) : RingBufferQueue α × Outcome α :=
  if q.isEmpty then (q, Outcome.raised QueueError.underflow)
  else
    match q.buffer[q.front]? with
    | none => (q, Outcome.undefined)
    | some item =>
      if q.capacity = 0 then (q, Outcome.undefined)
      else
        ({ q with front := (q.front + 1) % q.capacity, count := q.count - 1 },
          Outcome.returned item)

end RingBufferQueue

/-- One call made by a sequential caller. -/
inductive Call (α : Type) where
  | enqueue (v : α)
  | dequeue
  deriving DecidableEq

/-- The state after a call, whatever its outcome (a caller that catches the exception
goes on with the object as the throw left it). -/
def stepState {α : Type} (q : RingBufferQueue α) : Call α → RingBufferQueue α
  | Call.enqueue v => (q.enqueue v).1
  | Call.dequeue => q.dequeue.1

/-- The state after a sequence of calls, every exception caught by the caller. -/
def runState {α : Type} (q : RingBufferQueue α) : List (Call α) → RingBufferQueue α
  | [] => q
  | c :: cs => runState (stepState q c) cs

/-- The values of the `enqueue` calls of the sequence that returned without throwing,
in call order. -/
def acceptedValues {α : Type} (q : RingBufferQueue α) : List (Call α) → List α
  | [] => []
  | Call.enqueue v :: cs =>
    match (q.enqueue v).2 with
    | Outcome.returned _ => v :: acceptedValues (q.enqueue v).1 cs
    | _ => acceptedValues (q.enqueue v).1 cs
  | Call.dequeue :: cs => acceptedValues q.dequeue.1 cs

/-- The values of the `enqueue` calls of the sequence that threw, in call order. -/
def rejectedValues {α : Type} (q : RingBufferQueue α) : List (Call α) → List α
  | [] => []
  | Call.enqueue v :: cs =>
    match (q.enqueue v).2 with
    | Outcome.raised _ => v :: rejectedValues (q.enqueue v).1 cs
    | _ => rejectedValues (q.enqueue v).1 cs
  | Call.dequeue :: cs => rejectedValues q.dequeue.1 cs

/-- The values returned by the `dequeue` calls of the sequence that returned, in call
order. -/
def dequeuedValues {α : Type} (q : RingBufferQueue α) : List (Call α) → List α
  | [] => []
  | Call.enqueue v :: cs => dequeuedValues (q.enqueue v).1 cs
  | Call.dequeue :: cs =>
    match q.dequeue.2 with
    | Outcome.returned v => v :: dequeuedValues q.dequeue.1 cs
    | _ => dequeuedValues q.dequeue.1 cs

/-- The outcomes of `enqueue(v)` for each `v` of the list in turn, with the final
state; a caller that catches each exception and carries on. -/
def enqueueAll {α : Type} (q : RingBufferQueue α) :
    List α → RingBufferQueue α × List (Outcome Unit)
  | [] => (q, [])
  | v :: vs =>
    ((enqueueAll (q.enqueue v).1 vs).1, (q.enqueue v).2 :: (enqueueAll (q.enqueue v).1 vs).2)

/-- The outcomes of `n` consecutive `dequeue()` calls, with the final state. -/
def dequeueN {α : Type} (q : RingBufferQueue α) :
    Nat → RingBufferQueue α × List (Outcome α)
  | 0 => (q, [])
  | n + 1 => ((dequeueN q.dequeue.1 n).1, q.dequeue.2 :: (dequeueN q.dequeue.1 n).2)

/-- Whether an outcome is a thrown exception. -/
def Outcome.isRaised {β : Type} : Outcome β → Bool
  | Outcome.raised _ => true
  | _ => false

/-- Whether no call of the sequence throws, the calls being made in turn from `q`. -/
def noCallRaises {α : Type} (q : RingBufferQueue α) : List (Call α) → Bool
  | [] => true
  | Call.enqueue v :: cs => !(q.enqueue v).2.isRaised && noCallRaises (q.enqueue v).1 cs
  | Call.dequeue :: cs => !q.dequeue.2.isRaised && noCallRaises q.dequeue.1 cs

/-- The buffer indices used by the calls of the sequence, in order: `enqueue` writes
`buffer[rear]` (line 20), `dequeue` reads `buffer[front]` (line 34) unless it throws
first (line 31). -/
def accessedIndices {α : Type} (q : RingBufferQueue α) : List (Call α) → List Nat
  | [] => []
  | Call.enqueue v :: cs => q.rear :: accessedIndices (q.enqueue v).1 cs
  | Call.dequeue :: cs =>
    if q.isEmpty then accessedIndices q.dequeue.1 cs
    else q.front :: accessedIndices q.dequeue.1 cs

/-- The abstract FIFO list of the refinement claim, written from the claim's words:
`enqueue(v)` appends `v` to `L`, `dequeue` removes the head of `L`. -/
def listStep {α : Type} (L : List α) : Call α → List α
  | Call.enqueue v => L ++ [v]
  | Call.dequeue => L.tail

/-- The abstract list after a sequence of calls. -/
def listRun {α : Type} (L : List α) : List (Call α) → List α
  | [] => L
  | c :: cs => listRun (listStep L c) cs

/-- The heads handed out by the `dequeue` calls of the sequence on the abstract list
(a `dequeue` on the empty list hands out nothing). -/
def listDequeued {α : Type} (L : List α) : List (Call α) → List α
  | [] => []
  | Call.enqueue v :: cs => listDequeued (L ++ [v]) cs
  | Call.dequeue :: cs =>
    match L with
    | [] => listDequeued [] cs
    | x :: L1 => x :: listDequeued L1 cs

/-- The queue `q` holds the abstract list `L`: `count` is its length, `rear` is
`count` slots after `front` modulo the capacity, and slot `(front + i) % capacity`
holds the `i`-th element. -/
def Simulates {α : Type} (q : RingBufferQueue α) (L : List α) : Prop :=
  q.count = L.length ∧
  q.rear = (q.front + q.count) % q.capacity ∧
  ∀ i, i < q.count → q.buffer[(q.front + i) % q.capacity]? = L[i]?

/-- The shape every object built with capacity `c` keeps: `capacity` is `c`, both
indices are below it, and the buffer has the `c * 5` slots of the constructor. -/
def WellFormed {α : Type} (c : Nat) (q : RingBufferQueue α) : Prop :=
  q.capacity = c ∧ q.front < c ∧ q.rear < c ∧ q.buffer.length = c * 5

instance {α : Type} (c : Nat) (q : RingBufferQueue α) : Decidable (WellFormed c q) := by
  unfold WellFormed
  infer_instance

end RingBuffer

/-! The lock-based queue of src/thread_safe_queue.cpp, used by one thread.

`my_global_queue` is a `std::queue<int>`, a list with the front of the queue first.
With a single thread every `unique_lock` is acquired at once, so the mutex carries no
state here.  `front()` and `pop()` on an empty `std::queue` are undefined behaviour. -/

namespace LockQueue

/-- The data member `my_global_queue` of class `threadsafe_queue` (lines 16-19). -/
structure threadsafe_queue where
  my_global_queue : List Int
  deriving DecidableEq

namespace threadsafe_queue

/-- A default-constructed `threadsafe_queue q;` (line 61): an empty `std::queue`. -/
def new : threadsafe_queue := { my_global_queue := [] }

/-- Source `push(int new_value)` (lines 21-26): `my_global_queue.push(new_value);`. -/
def push (q : threadsafe_queue) (new_value : Int) : threadsafe_queue :=
  { my_global_queue := q.my_global_queue ++ [new_value] }

/-- Source `pop()` (lines 28-33): `popped_val = my_global_queue.front();
my_global_queue.pop(); return popped_val;`.  `none` is the undefined behaviour of
`front()` on an empty queue. -/
def pop (q : threadsafe_queue) : Option (Int × threadsafe_queue) :=
  match q.my_global_queue with
  | [] => none
  | popped_val :: rest => some (popped_val, { my_global_queue := rest })

/-- Source `empty()` (lines 35-39): `return my_global_queue.empty();`. -/
def empty (q : threadsafe_queue) : Bool := q.my_global_queue.isEmpty

end threadsafe_queue

/-- The pushes of a single thread, one `push` per value in list order. -/
def pushAll (q : threadsafe_queue) : List Int → threadsafe_queue
  | [] => q
  | v :: vs => pushAll (q.push v) vs

/-- The values returned by `k` consecutive `pop()` calls, with the final queue; `none`
when one of them is undefined. -/
def popN : Nat → threadsafe_queue → Option (List Int × threadsafe_queue)
  | 0, q => some ([], q)
  | k + 1, q =>
    match q.pop with
    | none => none
    | some (v, q1) =>
      match popN k q1 with
      | none => none
      | some (out, q2) => some (v :: out, q2)

/-- The drain loop of `main` (lines 86-88), `while (!q.empty()) { cout << q.pop(); }`,
run for at most `fuel` tests of the loop condition.  It gives the values printed and the
final queue, or `none` when the fuel runs out or `pop` is undefined. -/
def drainLoop : Nat → threadsafe_queue → Option (List Int × threadsafe_queue)
  | 0, _ => none
  | fuel + 1, q =>
    if q.empty then some ([], q)
    else
      match q.pop with
      | none => none
      | some (v, q1) =>
        match drainLoop fuel q1 with
        | none => none
        | some (out, q2) => some (v :: out, q2)

end LockQueue

namespace RingBuffer

/-! ## Evaluations of the source on concrete call sequences -/

open RingBufferQueue

/-- C1 (global FIFO), evaluated on a capacity-2 queue with the calls
`enqueue(1); enqueue(2); enqueue(3); dequeue(); dequeue()`: the second enqueue throws,
the other two are accepted, and the two dequeues return `3` and then the rejected `2`,
which is not a prefix of the accepted values `1, 3`. -/
theorem fifo_broken_by_rejected_enqueue :
    acceptedValues (fresh 2 (fun _ => (0 : Int)))
        [Call.enqueue 1, Call.enqueue 2, Call.enqueue 3, Call.dequeue, Call.dequeue] = [1, 3] ∧
    rejectedValues (fresh 2 (fun _ => (0 : Int)))
        [Call.enqueue 1, Call.enqueue 2, Call.enqueue 3, Call.dequeue, Call.dequeue] = [2] ∧
    dequeuedValues (fresh 2 (fun _ => (0 : Int)))
        [Call.enqueue 1, Call.enqueue 2, Call.enqueue 3, Call.dequeue, Call.dequeue] = [3, 2] ∧
    ¬ (dequeuedValues (fresh 2 (fun _ => (0 : Int)))
        [Call.enqueue 1, Call.enqueue 2, Call.enqueue 3, Call.dequeue, Call.dequeue] <+:
      acceptedValues (fresh 2 (fun _ => (0 : Int)))
        [Call.enqueue 1, Call.enqueue 2, Call.enqueue 3, Call.dequeue, Call.dequeue]) := by
  decide

/-- C2 (state invariant), evaluated on a capacity-2 queue: after `enqueue(1); enqueue(2)`
the state has `front = 0`, `count = 1`, `rear = 0`, so `rear ≠ (front + count) % capacity`;
and after six enqueue attempts `count = 3`, above the capacity. -/
theorem invariant_broken_by_rejected_enqueue :
    (runState (fresh 2 (fun _ => (0 : Int))) [Call.enqueue 1, Call.enqueue 2]).rear = 0 ∧
    (runState (fresh 2 (fun _ => (0 : Int))) [Call.enqueue 1, Call.enqueue 2]).front = 0 ∧
    (runState (fresh 2 (fun _ => (0 : Int))) [Call.enqueue 1, Call.enqueue 2]).count = 1 ∧
    (runState (fresh 2 (fun _ => (0 : Int))) [Call.enqueue 1, Call.enqueue 2]).rear ≠
      ((runState (fresh 2 (fun _ => (0 : Int))) [Call.enqueue 1, Call.enqueue 2]).front +
        (runState (fresh 2 (fun _ => (0 : Int))) [Call.enqueue 1, Call.enqueue 2]).count) % 2 ∧
    (runState (fresh 2 (fun _ => (0 : Int)))
      [Call.enqueue 1, Call.enqueue 2, Call.enqueue 3, Call.enqueue 4, Call.enqueue 5,
        Call.enqueue 6]).count = 3 ∧
    ¬ ((runState (fresh 2 (fun _ => (0 : Int)))
      [Call.enqueue 1, Call.enqueue 2, Call.enqueue 3, Call.enqueue 4, Call.enqueue 5,
        Call.enqueue 6]).count ≤ 2) := by
  decide

/-- C3 (round trip at full capacity), evaluated at `N = 1` and `N = 3`: the `N`-th
enqueue on a fresh queue of capacity `N` throws, and with `N = 3` the three dequeues
that follow return `v0`, `v1` and then throw the empty error. -/
theorem round_trip_last_enqueue_rejected :
    (enqueueAll (fresh 1 (fun _ => (0 : Int))) [7]).2 =
      [Outcome.raised QueueError.overflow] ∧
    (enqueueAll (fresh 3 (fun _ => (0 : Int))) [7, 8, 9]).2 =
      [Outcome.returned (), Outcome.returned (), Outcome.raised QueueError.overflow] ∧
    (dequeueN (enqueueAll (fresh 3 (fun _ => (0 : Int))) [7, 8, 9]).1 3).2 =
      [Outcome.returned 7, Outcome.returned 8, Outcome.raised QueueError.underflow] := by
  decide

/-- C4 (rejected exactly when full), evaluated: on a fresh capacity-1 queue
(`count = 0 < 1`) `enqueue` throws; and on the capacity-3 queue reached by four
enqueue attempts (`count = 3 = capacity`) `enqueue` returns and `count` becomes 4. -/
theorem enqueue_rejection_is_not_count_eq_capacity :
    ((fresh 1 (fun _ => (0 : Int))).enqueue 7).2 = Outcome.raised QueueError.overflow ∧
    (fresh 1 (fun _ => (0 : Int))).count = 0 ∧
    (enqueueAll (fresh 3 (fun _ => (0 : Int))) [1, 2, 3, 4]).1.count = 3 ∧
    (enqueueAll (fresh 3 (fun _ => (0 : Int))) [1, 2, 3, 4]).1.capacity = 3 ∧
    ((enqueueAll (fresh 3 (fun _ => (0 : Int))) [1, 2, 3, 4]).1.enqueue 5).2 =
      Outcome.returned () ∧
    ((enqueueAll (fresh 3 (fun _ => (0 : Int))) [1, 2, 3, 4]).1.enqueue 5).1.count = 4 := by
  decide

/-- C5 (a rejected enqueue changes nothing), evaluated on the capacity-2 queue holding
one value: `enqueue(2)` throws, and the state it leaves has `rear = 0` where it was 1
and slot 1 holding `2` where it held `0`. -/
theorem rejected_enqueue_mutates :
    (((fresh 2 (fun _ => (0 : Int))).enqueue 1).1.enqueue 2).2 =
      Outcome.raised QueueError.overflow ∧
    ((fresh 2 (fun _ => (0 : Int))).enqueue 1).1.rear = 1 ∧
    (((fresh 2 (fun _ => (0 : Int))).enqueue 1).1.enqueue 2).1.rear = 0 ∧
    ((fresh 2 (fun _ => (0 : Int))).enqueue 1).1.buffer[1]? = some 0 ∧
    (((fresh 2 (fun _ => (0 : Int))).enqueue 1).1.enqueue 2).1.buffer[1]? = some 2 ∧
    (((fresh 2 (fun _ => (0 : Int))).enqueue 1).1.enqueue 2).1 ≠
      ((fresh 2 (fun _ => (0 : Int))).enqueue 1).1 := by
  decide

/-- C8 (wraparound with capacity 3), evaluated with `a, b, c, d = 1, 2, 3, 4`: the
third enqueue throws, `dequeue()` returns `a`, `enqueue(d)` throws as well, and the next
three dequeues return `b` and then throw the empty error twice. -/
theorem wraparound_capacity_three_trace :
    (enqueueAll (fresh 3 (fun _ => (0 : Int))) [1, 2, 3]).2 =
      [Outcome.returned (), Outcome.returned (), Outcome.raised QueueError.overflow] ∧
    (enqueueAll (fresh 3 (fun _ => (0 : Int))) [1, 2, 3]).1.dequeue.2 = Outcome.returned 1 ∧
    ((enqueueAll (fresh 3 (fun _ => (0 : Int))) [1, 2, 3]).1.dequeue.1.enqueue 4).2 =
      Outcome.raised QueueError.overflow ∧
    (dequeueN ((enqueueAll (fresh 3 (fun _ => (0 : Int))) [1, 2, 3]).1.dequeue.1.enqueue 4).1 3).2 =
      [Outcome.returned 2, Outcome.raised QueueError.underflow,
        Outcome.raised QueueError.underflow] := by
  decide

/-- C9 (overflow is contained), evaluated on the input of `testThreadSafetyWithOverflow`
run by one thread: twelve enqueue attempts on a capacity-3 queue, every exception
caught, leave `size() = 8`; and one attempt on a capacity-1 queue leaves `size() = 0`. -/
theorem overflow_not_contained :
    (enqueueAll (fresh 3 (fun _ => (0 : Int))) [0, 1, 2, 3, 4, 5, 6, 7, 8, 9, 10, 11]).1.size = 8 ∧
    (enqueueAll (fresh 1 (fun _ => (0 : Int))) [0]).1.size = 0 := by
  decide

/-! ## Runs that stay below the capacity -/

/-- The constructor allocates `capacity * 5` slots. -/
theorem fresh_buffer_length {α : Type} (c : Nat) (mem : Nat → α) :
    (fresh c mem).buffer.length = c * 5 := by
  simp [fresh]

/-- An enqueue whose advanced `rear` neither wraps nor meets `front` returns, having
written the slot, advanced `rear` by one and counted the value. -/
theorem enqueue_no_wrap {α : Type} (q : RingBufferQueue α) (v : α)
    (hlen : q.rear < q.buffer.length) (hroom : q.rear + 1 < q.capacity)
    (hfront : q.front ≠ q.rear + 1) :
    q.enqueue v =
      ({ q with buffer := q.buffer.set q.rear v, rear := q.rear + 1, count := q.count + 1 },
        Outcome.returned ()) := by
  have h0 : q.capacity ≠ 0 := by omega
  have hmod : (q.rear + 1) % q.capacity = q.rear + 1 := Nat.mod_eq_of_lt hroom
  simp [enqueue, hlen, h0, hmod, hfront]

/-- A dequeue on a non-empty queue whose advanced `front` does not wrap returns the
slot at `front`, advances `front` by one and decrements `count`. -/
theorem dequeue_no_wrap {α : Type} (q : RingBufferQueue α) (v : α)
    (hcount : q.count ≠ 0) (hslot : q.buffer[q.front]? = some v)
    (hroom : q.front + 1 < q.capacity) :
    q.dequeue = ({ q with front := q.front + 1, count := q.count - 1 }, Outcome.returned v) := by
  have h0 : q.capacity ≠ 0 := by omega
  have hmod : (q.front + 1) % q.capacity = q.front + 1 := Nat.mod_eq_of_lt hroom
  simp [dequeue, isEmpty, hcount, hslot, h0, hmod]

/-- Enqueueing a list that fits strictly below the capacity, starting with `front = 0`:
every call returns, and the values land in the slots `rear, rear + 1, ...`. -/
theorem enqueueAll_below_capacity {α : Type} (vs : List α) :
    ∀ q : RingBufferQueue α, q.front = 0 → q.rear + vs.length < q.capacity →
      q.capacity ≤ q.buffer.length →
      (enqueueAll q vs).2 = List.replicate vs.length (Outcome.returned ()) ∧
      (enqueueAll q vs).1.front = 0 ∧
      (enqueueAll q vs).1.rear = q.rear + vs.length ∧
      (enqueueAll q vs).1.count = q.count + vs.length ∧
      (enqueueAll q vs).1.capacity = q.capacity ∧
      (enqueueAll q vs).1.buffer.length = q.buffer.length ∧
      (∀ i, i < q.rear → (enqueueAll q vs).1.buffer[i]? = q.buffer[i]?) ∧
      (∀ i, i < vs.length → (enqueueAll q vs).1.buffer[q.rear + i]? = vs[i]?) := by
  induction vs with
  | nil =>
    intro q hf _ _
    simp [enqueueAll, hf]
  | cons v vs ih =>
    intro q hf hroom hbuf
    simp only [List.length_cons] at hroom
    have hstep := enqueue_no_wrap q v (by omega) (by omega) (by omega)
    have hlen : q.rear < q.buffer.length := by omega
    have ih1 := ih { q with buffer := q.buffer.set q.rear v, rear := q.rear + 1,
                            count := q.count + 1 }
      hf (by simp only; omega) (by simp only [List.length_set]; exact hbuf)
    simp only [List.length_set] at ih1
    obtain ⟨h1, h2, h3, h4, h5, h6, h7, h8⟩ := ih1
    simp only [enqueueAll, hstep, List.length_cons, List.replicate_succ]
    refine ⟨by rw [h1], h2, by omega, by omega, h5, h6, ?_, ?_⟩
    · intro i hi
      rw [h7 i (by omega)]
      exact List.getElem?_set_ne (by omega)
    · intro i hi
      cases i with
      | zero =>
        have h := h7 q.rear (by omega)
        simpa [hlen] using h
      | succ j =>
        have := h8 j (by omega)
        rw [show q.rear + (j + 1) = q.rear + 1 + j by omega, this]
        simp

/-- Dequeueing `vs.length` times from a queue whose slots `front, front + 1, ...` hold
`vs`, without wrapping: the calls return `vs` in order and leave `count = 0`. -/
theorem dequeueN_below_capacity {α : Type} (vs : List α) :
    ∀ q : RingBufferQueue α, q.count = vs.length → q.front + vs.length < q.capacity →
      (∀ i, i < vs.length → q.buffer[q.front + i]? = vs[i]?) →
      (dequeueN q vs.length).2 = vs.map Outcome.returned ∧
      (dequeueN q vs.length).1.count = 0 := by
  induction vs with
  | nil =>
    intro q hc _ _
    simpa [dequeueN] using hc
  | cons v vs ih =>
    intro q hc hroom hslots
    simp only [List.length_cons] at hc hroom
    have h0 : q.buffer[q.front]? = some v := by
      have := hslots 0 (by simp)
      simpa using this
    have hstep := dequeue_no_wrap q v (by omega) h0 (by omega)
    have ih1 := ih { q with front := q.front + 1, count := q.count - 1 }
      (by simp only; omega) (by simp only; omega)
      (by
        intro i hi
        have := hslots (i + 1) (by simp only [List.length_cons]; omega)
        simp only [List.getElem?_cons_succ] at this
        simp only
        rw [show q.front + 1 + i = q.front + (i + 1) by omega]
        exact this)
    obtain ⟨h1, h2⟩ := ih1
    simp only [dequeueN, hstep, List.length_cons, List.map_cons]
    exact ⟨by rw [h1], h2⟩

/-! ## Properties of single calls -/

/-- C6: in every state `dequeue()` throws the empty (underflow) error exactly when
`count = 0`, and when it throws the whole state (`count`, `front`, `rear`, `capacity`
and every buffer slot) is what it was before the call. -/
theorem dequeue_raises_iff_count_zero {α : Type} (q : RingBufferQueue α) :
    (q.dequeue.2 = Outcome.raised QueueError.underflow ↔ q.count = 0) ∧
    (q.dequeue.2 = Outcome.raised QueueError.underflow → q.dequeue.1 = q) := by
  unfold dequeue isEmpty
  by_cases hc : q.count = 0
  · simp [hc]
  · simp only [beq_iff_eq, hc, if_false, false_iff, IsEmpty.forall_iff, and_true]
    cases hb : q.buffer[q.front]? with
    | none => simp
    | some item => by_cases h0 : q.capacity = 0 <;> simp [h0]

/-- C11: in a state with `capacity ≥ 1`, `front < capacity` and `count > 0` (the
`capacity` slots being allocated), `dequeue()` returns the value stored in the slot at
the old `front`; afterwards `front = (old front + 1) % capacity`,
`count = old count - 1`, and `rear`, `capacity` and the whole buffer are unchanged. -/
theorem dequeue_success_effect {α : Type} (q : RingBufferQueue α)
    (hcap : 1 ≤ q.capacity) (hfront : q.front < q.capacity) (hcount : 0 < q.count)
    (hbuf : q.capacity ≤ q.buffer.length) :
    ∃ item, q.buffer[q.front]? = some item ∧
      q.dequeue.2 = Outcome.returned item ∧
      q.dequeue.1.front = (q.front + 1) % q.capacity ∧
      q.dequeue.1.count = q.count - 1 ∧
      q.dequeue.1.rear = q.rear ∧
      q.dequeue.1.capacity = q.capacity ∧
      q.dequeue.1.buffer = q.buffer := by
  have hlt : q.front < q.buffer.length := by omega
  have hc : q.count ≠ 0 := by omega
  have h0 : q.capacity ≠ 0 := by omega
  refine ⟨q.buffer[q.front], List.getElem?_eq_getElem hlt, ?_⟩
  simp [dequeue, isEmpty, hc, h0, List.getElem?_eq_getElem hlt]

/-- Witness for C11: the capacity-2 queue holding the single value `1`. -/
theorem dequeue_success_effect_witness :
    1 ≤ ((fresh 2 (fun _ => (0 : Int))).enqueue 1).1.capacity ∧
    0 < ((fresh 2 (fun _ => (0 : Int))).enqueue 1).1.count ∧
    ∃ item, ((fresh 2 (fun _ => (0 : Int))).enqueue 1).1.buffer[
        ((fresh 2 (fun _ => (0 : Int))).enqueue 1).1.front]? = some item ∧
      ((fresh 2 (fun _ => (0 : Int))).enqueue 1).1.dequeue.2 = Outcome.returned item :=
  have h := dequeue_success_effect ((fresh 2 (fun _ => (0 : Int))).enqueue 1).1
    (by decide) (by decide) (by decide) (by decide)
  ⟨by decide, by decide, h.imp (fun _ hi => ⟨hi.1, hi.2.1⟩)⟩

/-- An `int` product that fits in 32 bits is the exact product. -/
theorem wrapInt32_of_fits (x : Int) (hlo : -2147483648 ≤ x) (hhi : x ≤ 2147483647) :
    wrapInt32 x = x := by
  unfold wrapInt32
  omega

/-- For a capacity from 0 to 429496729 the constructor builds the state `fresh`. -/
theorem construct_eq_fresh {α : Type} (capacity : Int) (mem : Nat → α)
    (hlo : 0 ≤ capacity) (hhi : capacity ≤ 429496729) :
    construct capacity mem = Constructed.built (fresh capacity.toNat mem) := by
  have hw : wrapInt32 (capacity * 5) = capacity * 5 :=
    wrapInt32_of_fits _ (by omega) (by omega)
  have h1 : ¬ capacity * 5 < 0 := by omega
  have h2 : ¬ capacity < 0 := by omega
  have h3 : (capacity * 5).toNat = capacity.toNat * 5 := by omega
  simp only [construct, hw, h1, h2, if_false, h3, fresh]

/-- The constructor where `capacity * 5` leaves the `int` range: capacity 429496730
throws, capacity 858993460 gets a 4-slot buffer, and capacity -858993459 is built, with
a 1-slot buffer. -/
theorem construct_where_product_wraps :
    construct (429496730 : Int) (fun _ => (0 : Int)) = Constructed.threw ∧
    construct (858993460 : Int) (fun _ => (0 : Int)) =
      Constructed.built
        { buffer := [(0 : Int), 0, 0, 0], front := 0, rear := 0, count := 0,
          capacity := 858993460 } ∧
    construct (-858993459 : Int) (fun _ => (0 : Int)) =
      Constructed.builtNegative (-858993459) 1 := by
  decide

/-- C13 as stated fails at capacity 0: the constructor makes no check of its own, and
`new T[0]` succeeds, so `RingBufferQueue q(0)` is built, with an empty buffer. -/
theorem construct_zero_succeeds :
    construct (0 : Int) (fun _ => (0 : Int)) =
      Constructed.built { buffer := [], front := 0, rear := 0, count := 0, capacity := 0 } ∧
    construct (0 : Int) (fun _ => (0 : Int)) ≠ Constructed.threw := by
  decide

/-- C13, amended: for a capacity from -429496729 to 429496729, where `capacity * 5` is
an `int`, construction fails, building no queue, exactly when the capacity is negative
(the array allocation throws), and it succeeds for capacity 0 and for every capacity
`≥ 1`, leaving the fresh state of that capacity. -/
theorem construct_fails_iff_negative {α : Type} (capacity : Int) (mem : Nat → α)
    (hlo : -429496729 ≤ capacity) (hhi : capacity ≤ 429496729) :
    (construct capacity mem = Constructed.threw ↔ capacity < 0) ∧
    (construct capacity mem = Constructed.built (fresh capacity.toNat mem) ↔
      0 ≤ capacity) := by
  have hw : wrapInt32 (capacity * 5) = capacity * 5 :=
    wrapInt32_of_fits _ (by omega) (by omega)
  by_cases h : capacity < 0
  · have h1 : capacity * 5 < 0 := by omega
    have h2 : ¬ 0 ≤ capacity := by omega
    have hc : construct capacity mem = Constructed.threw := by
      simp only [construct, hw, h1, if_true]
    simp [hc, h, h2]
  · have h2 : 0 ≤ capacity := by omega
    have hc := construct_eq_fresh capacity mem h2 hhi
    simp [hc, h, h2]

/-- Witness for C13, amended: capacity -3 throws, capacity 0 is built. -/
theorem construct_fails_iff_negative_witness :
    (construct (-3 : Int) (fun _ => (0 : Int)) = Constructed.threw ↔ (-3 : Int) < 0) ∧
    (construct (0 : Int) (fun _ => (0 : Int)) =
      Constructed.built (fresh (0 : Int).toNat (fun _ => (0 : Int))) ↔ (0 : Int) ≤ 0) :=
  ⟨(construct_fails_iff_negative (-3) (fun _ => (0 : Int)) (by decide) (by decide)).1,
    (construct_fails_iff_negative 0 (fun _ => (0 : Int)) (by decide) (by decide)).2⟩

/-- C15 as stated fails at capacity 1: the constructor allocates 5 slots, not 1. -/
theorem construct_allocates_five_slots_for_capacity_one :
    construct (1 : Int) (fun _ => (0 : Int)) =
      Constructed.built
        { buffer := [(0 : Int), 0, 0, 0, 0], front := 0, rear := 0, count := 0,
          capacity := 1 } ∧
    ([0, 0, 0, 0, 0] : List Int).length = 5 ∧
    ([0, 0, 0, 0, 0] : List Int).length ≠ 1 := by
  decide

/-- C15, amended: for every capacity from 1 to 429496729, where `capacity * 5` is an
`int`, the constructor succeeds and the buffer it allocates has exactly `capacity * 5`
slots. -/
theorem construct_allocates_five_times_capacity {α : Type} (capacity : Int)
    (mem : Nat → α) (hcap : 1 ≤ capacity) (hhi : capacity ≤ 429496729) :
    ∃ q, construct capacity mem = Constructed.built q ∧
      (q.capacity : Int) = capacity ∧
      (q.buffer.length : Int) = capacity * 5 := by
  refine ⟨fresh capacity.toNat mem, construct_eq_fresh capacity mem (by omega) hhi, ?_, ?_⟩
  · simp only [fresh]
    omega
  · simp only [fresh, List.length_map, List.length_range]
    omega

/-- Witness for C15, amended: capacity 3 gives 15 slots. -/
theorem construct_allocates_five_times_capacity_witness :
    (1 : Int) ≤ 3 ∧ (3 : Int) ≤ 429496729 ∧
    ∃ q, construct (3 : Int) (fun _ => (0 : Int)) = Constructed.built q ∧
      (q.capacity : Int) = 3 ∧ (q.buffer.length : Int) = 3 * 5 :=
  ⟨by decide, by decide,
    construct_allocates_five_times_capacity 3 (fun _ => (0 : Int)) (by decide) (by decide)⟩

/-- C16: a fresh queue of capacity `≥ 1` is empty (`size() = 0`, `isEmpty()` true,
`isFull()` false); and in every state `isEmpty()` is true iff `count = 0`, `isFull()` is
true iff `count = capacity`, and `size()` returns `count`.  The three are `const`
member functions, embedded as functions of the state that return only their value, so
they change no field and no slot. -/
theorem initial_state_and_observers {α : Type} (c : Nat) (mem : Nat → α) (hc : 1 ≤ c) :
    (fresh c mem).size = 0 ∧
    (fresh c mem).isEmpty = true ∧
    (fresh c mem).isFull = false ∧
    ∀ q : RingBufferQueue α,
      (q.isEmpty = true ↔ q.count = 0) ∧
      (q.isFull = true ↔ q.count = q.capacity) ∧
      q.size = q.count := by
  refine ⟨rfl, rfl, ?_, ?_⟩
  · simp only [isFull, fresh, beq_eq_false_iff_ne, ne_eq]
    omega
  · intro q
    simp [isEmpty, isFull, size]

/-- Witness for C16: the fresh capacity-5 queue of the tests. -/
theorem initial_state_and_observers_witness :
    1 ≤ 5 ∧
    (fresh 5 (fun _ => (0 : Int))).size = 0 ∧
    (fresh 5 (fun _ => (0 : Int))).isEmpty = true ∧
    (fresh 5 (fun _ => (0 : Int))).isFull = false :=
  have h := initial_state_and_observers 5 (fun _ => (0 : Int)) (by decide)
  ⟨by decide, h.1, h.2.1, h.2.2.1⟩

/-- C14 (enqueues beyond the capacity are all counted), evaluated on the input of
`testMultiThreadedEnqueue` and of the fill loop of `testMultiThreadedDequeue` run by one
thread: of ten enqueues on a capacity-5 queue the fifth and the tenth throw, `size()` is
then 8, and draining the queue returns `5, 6, 7, 8, 9, 5, 6, 7`, not `0 .. 9`. -/
theorem ten_enqueues_on_capacity_five :
    (enqueueAll (fresh 5 (fun _ => (0 : Int))) [0, 1, 2, 3, 4, 5, 6, 7, 8, 9]).2 =
      [Outcome.returned (), Outcome.returned (), Outcome.returned (), Outcome.returned (),
        Outcome.raised QueueError.overflow,
        Outcome.returned (), Outcome.returned (), Outcome.returned (), Outcome.returned (),
        Outcome.raised QueueError.overflow] ∧
    (enqueueAll (fresh 5 (fun _ => (0 : Int))) [0, 1, 2, 3, 4, 5, 6, 7, 8, 9]).1.size = 8 ∧
    (enqueueAll (fresh 5 (fun _ => (0 : Int))) [0, 1, 2, 3, 4, 5, 6, 7, 8, 9]).1.size ≠ 10 ∧
    (dequeueN (enqueueAll (fresh 5 (fun _ => (0 : Int))) [0, 1, 2, 3, 4, 5, 6, 7, 8, 9]).1
        8).2 =
      [Outcome.returned 5, Outcome.returned 6, Outcome.returned 7, Outcome.returned 8,
        Outcome.returned 9, Outcome.returned 5, Outcome.returned 6, Outcome.returned 7] := by
  decide

/-- C17 (thread safety), evaluated on one interleaving of `testConcurrencyWithWrapAround`,
the serial one: the first producer makes its five enqueues, then the second, then the two
consumers make their five dequeues each, on a capacity-5 queue with the values `0 .. 9`
drawn in call order.  The fifth enqueue throws, which ends the run of the test, nothing
catching it.  Were every exception caught and the schedule carried on, the tenth enqueue
would throw too, `count` would reach 8, above the capacity, and the ten dequeues would
return `5, 6, 7, 8, 9, 5, 6, 7` and throw twice. -/
theorem serial_schedule_of_wraparound_test :
    (enqueueAll (fresh 5 (fun _ => (0 : Int))) [0, 1, 2, 3, 4]).2 =
      [Outcome.returned (), Outcome.returned (), Outcome.returned (), Outcome.returned (),
        Outcome.raised QueueError.overflow] ∧
    acceptedValues (fresh 5 (fun _ => (0 : Int)))
      [Call.enqueue 0, Call.enqueue 1, Call.enqueue 2, Call.enqueue 3, Call.enqueue 4,
        Call.enqueue 5, Call.enqueue 6, Call.enqueue 7, Call.enqueue 8, Call.enqueue 9,
        Call.dequeue, Call.dequeue, Call.dequeue, Call.dequeue, Call.dequeue,
        Call.dequeue, Call.dequeue, Call.dequeue, Call.dequeue, Call.dequeue] =
      [0, 1, 2, 3, 5, 6, 7, 8] ∧
    (runState (fresh 5 (fun _ => (0 : Int)))
      [Call.enqueue 0, Call.enqueue 1, Call.enqueue 2, Call.enqueue 3, Call.enqueue 4,
        Call.enqueue 5, Call.enqueue 6, Call.enqueue 7, Call.enqueue 8,
        Call.enqueue 9]).count = 8 ∧
    dequeuedValues (fresh 5 (fun _ => (0 : Int)))
      [Call.enqueue 0, Call.enqueue 1, Call.enqueue 2, Call.enqueue 3, Call.enqueue 4,
        Call.enqueue 5, Call.enqueue 6, Call.enqueue 7, Call.enqueue 8, Call.enqueue 9,
        Call.dequeue, Call.dequeue, Call.dequeue, Call.dequeue, Call.dequeue,
        Call.dequeue, Call.dequeue, Call.dequeue, Call.dequeue, Call.dequeue] =
      [5, 6, 7, 8, 9, 5, 6, 7] := by
  decide

/-! ## What every call does to a well-formed queue -/

/-- An enqueue on a queue whose `rear` slot is allocated and whose capacity is not zero
either throws, when the advanced `rear` meets `front`, or returns; both ways the slot is
written and `rear` advanced, and only the returning call counts the value. -/
theorem enqueue_eq {α : Type} (q : RingBufferQueue α) (v : α)
    (hlen : q.rear < q.buffer.length) (h0 : q.capacity ≠ 0) :
    (q.front = (q.rear + 1) % q.capacity ∧
      q.enqueue v =
        ({ q with buffer := q.buffer.set q.rear v, rear := (q.rear + 1) % q.capacity },
          Outcome.raised QueueError.overflow)) ∨
    (q.front ≠ (q.rear + 1) % q.capacity ∧
      q.enqueue v =
        ({ q with buffer := q.buffer.set q.rear v, rear := (q.rear + 1) % q.capacity,
                  count := q.count + 1 },
          Outcome.returned ())) := by
  by_cases hfr : q.front = (q.rear + 1) % q.capacity
  · left
    refine ⟨hfr, ?_⟩
    simp only [enqueue, hlen, h0, if_true, if_false]
    rw [if_pos hfr]
  · right
    refine ⟨hfr, ?_⟩
    simp only [enqueue, hlen, h0, if_true, if_false]
    rw [if_neg hfr]

/-- A dequeue on an empty queue throws and leaves the state alone. -/
theorem dequeue_eq_of_empty {α : Type} (q : RingBufferQueue α) (hc : q.count = 0) :
    q.dequeue = (q, Outcome.raised QueueError.underflow) := by
  simp [dequeue, isEmpty, hc]

/-- A dequeue on a non-empty queue whose `front` slot holds `x` returns `x`. -/
theorem dequeue_eq_of_slot {α : Type} (q : RingBufferQueue α) (x : α)
    (hc : q.count ≠ 0) (hslot : q.buffer[q.front]? = some x) (h0 : q.capacity ≠ 0) :
    q.dequeue =
      ({ q with front := (q.front + 1) % q.capacity, count := q.count - 1 },
        Outcome.returned x) := by
  simp [dequeue, isEmpty, hc, hslot, h0]

/-- The constructor leaves a well-formed queue when the capacity is at least 1. -/
theorem wellFormed_fresh {α : Type} (c : Nat) (mem : Nat → α) (hc : 1 ≤ c) :
    WellFormed c (fresh c mem) := by
  refine ⟨rfl, ?_, ?_, ?_⟩
  · simp only [fresh]; omega
  · simp only [fresh]; omega
  · simp [fresh]

/-- An enqueue keeps the queue well-formed, whatever its outcome, and leaves the slots
at indices `≥ capacity` alone. -/
theorem wellFormed_enqueue {α : Type} (c : Nat) (q : RingBufferQueue α) (v : α)
    (hc : 1 ≤ c) (hq : WellFormed c q) :
    WellFormed c (q.enqueue v).1 ∧
    ∀ i, c ≤ i → (q.enqueue v).1.buffer[i]? = q.buffer[i]? := by
  obtain ⟨hcap, hf, hr, hb⟩ := hq
  have hlen : q.rear < q.buffer.length := by omega
  have h0 : q.capacity ≠ 0 := by omega
  have hmod : (q.rear + 1) % q.capacity < c := by
    rw [hcap]; exact Nat.mod_lt _ (by omega)
  rcases enqueue_eq q v hlen h0 with ⟨_, he⟩ | ⟨_, he⟩ <;> rw [he] <;>
    refine ⟨⟨hcap, hf, hmod, by simpa using hb⟩, fun i hi => ?_⟩ <;>
    exact List.getElem?_set_ne (by omega)

/-- A dequeue keeps the queue well-formed, whatever its outcome, and writes no slot. -/
theorem wellFormed_dequeue {α : Type} (c : Nat) (q : RingBufferQueue α)
    (hc : 1 ≤ c) (hq : WellFormed c q) :
    WellFormed c q.dequeue.1 ∧ q.dequeue.1.buffer = q.buffer := by
  obtain ⟨hcap, hf, hr, hb⟩ := hq
  by_cases hcount : q.count = 0
  · rw [dequeue_eq_of_empty q hcount]
    exact ⟨⟨hcap, hf, hr, hb⟩, rfl⟩
  · have hlen : q.front < q.buffer.length := by omega
    rw [dequeue_eq_of_slot q q.buffer[q.front] hcount (List.getElem?_eq_getElem hlen)
      (by omega)]
    refine ⟨⟨hcap, ?_, hr, hb⟩, rfl⟩
    show (q.front + 1) % q.capacity < c
    rw [hcap]; exact Nat.mod_lt _ (by omega)

/-- Every state reached by a run from a well-formed queue is well-formed, the slots at
indices `≥ capacity` are never written, and every index used is below the capacity. -/
theorem wellFormed_runState {α : Type} (c : Nat) (hc : 1 ≤ c) (cs : List (Call α)) :
    ∀ q : RingBufferQueue α, WellFormed c q →
      WellFormed c (runState q cs) ∧
      (∀ i, c ≤ i → (runState q cs).buffer[i]? = q.buffer[i]?) ∧
      ∀ i ∈ accessedIndices q cs, i < c := by
  induction cs with
  | nil =>
    intro q hq
    exact ⟨hq, fun _ _ => rfl, by simp [accessedIndices]⟩
  | cons call cs ih =>
    intro q hq
    cases call with
    | enqueue v =>
      obtain ⟨hw, hs⟩ := wellFormed_enqueue c q v hc hq
      obtain ⟨h1, h2, h3⟩ := ih (q.enqueue v).1 hw
      refine ⟨h1, fun i hi => (h2 i hi).trans (hs i hi), ?_⟩
      intro i hi
      simp only [accessedIndices, List.mem_cons] at hi
      rcases hi with rfl | hi
      · exact hq.2.2.1
      · exact h3 i hi
    | dequeue =>
      obtain ⟨hw, hs⟩ := wellFormed_dequeue c q hc hq
      obtain ⟨h1, h2, h3⟩ := ih q.dequeue.1 hw
      refine ⟨h1, fun i hi => by rw [← hs]; exact h2 i hi, ?_⟩
      intro i hi
      simp only [accessedIndices] at hi
      split at hi
      · exact h3 i hi
      · simp only [List.mem_cons] at hi
        rcases hi with rfl | hi
        · exact hq.2.1
        · exact h3 i hi

/-- Two offsets below the capacity land on different slots. -/
theorem slot_ne_of_lt (c f i j : Nat) (hij : i < j) (hj : j < c) :
    (f + i) % c ≠ (f + j) % c := by
  intro h
  have h1 : i % c = j % c := Nat.ModEq.add_left_cancel' f h
  rw [Nat.mod_eq_of_lt (by omega), Nat.mod_eq_of_lt hj] at h1
  omega

/-- An enqueue that does not throw, on a well-formed queue holding the list `L` with
`count` below the capacity, leaves a queue holding `L ++ [v]`, again below the
capacity. -/
theorem simulates_enqueue {α : Type} (c : Nat) (q : RingBufferQueue α) (L : List α)
    (v : α) (hc : 1 ≤ c) (hq : WellFormed c q) (hs : Simulates q L) (hlt : q.count < c)
    (hno : (q.enqueue v).2.isRaised = false) :
    Simulates (q.enqueue v).1 (L ++ [v]) ∧ (q.enqueue v).1.count < c := by
  obtain ⟨hcap, hf, hr, hb⟩ := hq
  obtain ⟨hcount, hrear, hslots⟩ := hs
  have hlen : q.rear < q.buffer.length := by omega
  have h0 : q.capacity ≠ 0 := by omega
  rcases enqueue_eq q v hlen h0 with ⟨_, he⟩ | ⟨hne, he⟩
  · rw [he] at hno
    simp [Outcome.isRaised] at hno
  · rw [he]
    have hrear1 : (q.rear + 1) % q.capacity = (q.front + (q.count + 1)) % q.capacity := by
      rw [hrear, Nat.mod_add_mod, Nat.add_assoc]
    have hcount1 : q.count + 1 < c := by
      rcases Nat.lt_or_ge (q.count + 1) c with h | h
      · exact h
      · exfalso
        have heq : q.count + 1 = q.capacity := by omega
        apply hne
        rw [hrear1, heq, Nat.add_mod_right, Nat.mod_eq_of_lt (by omega)]
    refine ⟨⟨?_, hrear1, ?_⟩, hcount1⟩
    · simp [hcount]
    · intro i hi
      simp only at hi ⊢
      rcases Nat.lt_or_ge i q.count with h | h
      · have hne1 : q.rear ≠ (q.front + i) % q.capacity := by
          rw [hrear]
          exact (slot_ne_of_lt q.capacity q.front i q.count h (by omega)).symm
        rw [List.getElem?_set_ne hne1, hslots i h,
          List.getElem?_append_left (by omega)]
      · have hi1 : i = q.count := by omega
        subst hi1
        rw [← hrear, hcount]
        simp [hlen]

/-- A dequeue that does not throw, on a well-formed queue holding the list `L`,
returns the head of `L` and leaves a queue holding its tail. -/
theorem simulates_dequeue {α : Type} (c : Nat) (q : RingBufferQueue α) (L : List α)
    (hc : 1 ≤ c) (hq : WellFormed c q) (hs : Simulates q L) (hlt : q.count < c)
    (hno : q.dequeue.2.isRaised = false) :
    ∃ x, L.head? = some x ∧ q.dequeue.2 = Outcome.returned x ∧
      Simulates q.dequeue.1 L.tail ∧ q.dequeue.1.count < c := by
  obtain ⟨hcap, hf, hr, hb⟩ := hq
  obtain ⟨hcount, hrear, hslots⟩ := hs
  have h0 : q.capacity ≠ 0 := by omega
  have hne : q.count ≠ 0 := by
    intro h
    rw [dequeue_eq_of_empty q h] at hno
    simp [Outcome.isRaised] at hno
  cases L with
  | nil => simp at hcount; omega
  | cons x L1 =>
    have hslot : q.buffer[q.front]? = some x := by
      have := hslots 0 (by omega)
      rw [Nat.add_zero, Nat.mod_eq_of_lt (by omega)] at this
      simpa using this
    rw [dequeue_eq_of_slot q x hne hslot h0]
    simp only [List.length_cons] at hcount
    refine ⟨x, rfl, rfl, ⟨?_, ?_, ?_⟩, ?_⟩
    · simp only [List.tail_cons]; omega
    · show q.rear = ((q.front + 1) % q.capacity + (q.count - 1)) % q.capacity
      rw [Nat.mod_add_mod, hrear]
      congr 1
      omega
    · intro i hi
      show q.buffer[((q.front + 1) % q.capacity + i) % q.capacity]? = (x :: L1).tail[i]?
      simp only at hi
      rw [Nat.mod_add_mod, show q.front + 1 + i = q.front + (i + 1) by omega,
        hslots (i + 1) (by omega)]
      simp
    · show q.count - 1 < c
      omega

/-- A run in which no call throws, from a well-formed queue holding `L` below the
capacity: the queue keeps holding the abstract list, stays below the capacity, and the
dequeues return the heads the abstract list hands out. -/
theorem simulates_runState {α : Type} (c : Nat) (hc : 1 ≤ c) (cs : List (Call α)) :
    ∀ (q : RingBufferQueue α) (L : List α), WellFormed c q → Simulates q L →
      q.count < c → noCallRaises q cs = true →
      Simulates (runState q cs) (listRun L cs) ∧ (runState q cs).count < c ∧
      dequeuedValues q cs = listDequeued L cs := by
  induction cs with
  | nil =>
    intro q L _ hs hlt _
    exact ⟨hs, hlt, rfl⟩
  | cons call cs ih =>
    intro q L hq hs hlt hno
    cases call with
    | enqueue v =>
      simp only [noCallRaises, Bool.and_eq_true, Bool.not_eq_true'] at hno
      obtain ⟨h1, h2⟩ := simulates_enqueue c q L v hc hq hs hlt hno.1
      exact ih (q.enqueue v).1 (L ++ [v]) (wellFormed_enqueue c q v hc hq).1 h1 h2 hno.2
    | dequeue =>
      simp only [noCallRaises, Bool.and_eq_true, Bool.not_eq_true'] at hno
      obtain ⟨x, hx, hret, h1, h2⟩ := simulates_dequeue c q L hc hq hs hlt hno.1
      obtain ⟨h3, h4, h5⟩ :=
        ih q.dequeue.1 L.tail (wellFormed_dequeue c q hc hq).1 h1 h2 hno.2
      refine ⟨h3, h4, ?_⟩
      cases L with
      | nil => simp at hx
      | cons y L1 =>
        simp only [List.head?_cons, Option.some.injEq] at hx
        subst hx
        simp only [dequeuedValues, listDequeued, hret]
        rw [h5]
        rfl

/-- A fresh queue holds the empty list. -/
theorem simulates_fresh {α : Type} (c : Nat) (mem : Nat → α) :
    Simulates (fresh c mem) [] := by
  refine ⟨rfl, ?_, ?_⟩
  · simp [fresh]
  · intro i hi
    simp [fresh] at hi

/-- Every prefix of a run in which no call throws is such a run. -/
theorem noCallRaises_take {α : Type} (cs : List (Call α)) :
    ∀ (q : RingBufferQueue α) (k : Nat), noCallRaises q cs = true →
      noCallRaises q (cs.take k) = true := by
  induction cs with
  | nil => intro q k h; simpa using h
  | cons call cs ih =>
    intro q k h
    cases k with
    | zero => rfl
    | succ k =>
      cases call with
      | enqueue v =>
        simp only [noCallRaises, List.take_succ_cons, Bool.and_eq_true] at h ⊢
        exact ⟨h.1, ih _ k h.2⟩
      | dequeue =>
        simp only [noCallRaises, List.take_succ_cons, Bool.and_eq_true] at h ⊢
        exact ⟨h.1, ih _ k h.2⟩

/-- In a run in which no call throws, a `dequeue` at position `k` does not throw in the
state reached by the first `k` calls. -/
theorem dequeue_not_raised_at {α : Type} (cs : List (Call α)) :
    ∀ (q : RingBufferQueue α) (k : Nat), noCallRaises q cs = true →
      cs[k]? = some Call.dequeue →
      (runState q (cs.take k)).dequeue.2.isRaised = false := by
  induction cs with
  | nil => intro q k _ h; simp at h
  | cons call cs ih =>
    intro q k hno hk
    cases k with
    | zero =>
      simp only [List.getElem?_cons_zero, Option.some.injEq] at hk
      subst hk
      simp only [noCallRaises, Bool.and_eq_true, Bool.not_eq_true'] at hno
      exact hno.1
    | succ k =>
      simp only [List.getElem?_cons_succ] at hk
      cases call with
      | enqueue v =>
        simp only [noCallRaises, Bool.and_eq_true] at hno
        exact ih _ k hno.2 hk
      | dequeue =>
        simp only [noCallRaises, Bool.and_eq_true] at hno
        exact ih _ k hno.2 hk

/-- Enqueueing two lists in a row is enqueueing their concatenation. -/
theorem enqueueAll_append {α : Type} (vs ws : List α) :
    ∀ q : RingBufferQueue α,
      enqueueAll q (vs ++ ws) =
        ((enqueueAll (enqueueAll q vs).1 ws).1,
          (enqueueAll q vs).2 ++ (enqueueAll (enqueueAll q vs).1 ws).2) := by
  induction vs with
  | nil => intro q; simp [enqueueAll]
  | cons v vs ih =>
    intro q
    rw [List.cons_append]
    simp only [enqueueAll]
    rw [ih]
    simp only [List.cons_append]

end RingBuffer

namespace LockQueue

open threadsafe_queue

/-- After the pushes the queue holds what it held, followed by the pushed values. -/
theorem pushAll_queue (vs : List Int) :
    ∀ q : threadsafe_queue, (pushAll q vs).my_global_queue = q.my_global_queue ++ vs := by
  induction vs with
  | nil => intro q; simp [pushAll]
  | cons v vs ih =>
    intro q
    simp [pushAll, ih, push]

/-- The first `k` pops of a queue holding at least `k` values return its first `k`
values and leave the rest. -/
theorem popN_eq (k : Nat) :
    ∀ q : threadsafe_queue, k ≤ q.my_global_queue.length →
      popN k q =
        some (q.my_global_queue.take k, { my_global_queue := q.my_global_queue.drop k }) := by
  induction k with
  | zero => intro q _; simp [popN]
  | succ k ih =>
    intro q hk
    obtain ⟨l⟩ := q
    cases l with
    | nil => simp at hk
    | cons x rest =>
      simp only [List.length_cons, Nat.add_le_add_iff_right] at hk
      simp [popN, pop, ih { my_global_queue := rest } hk]

/-- With more fuel than queued values the drain loop ends, having printed the queued
values in order and emptied the queue. -/
theorem drainLoop_eq (fuel : Nat) :
    ∀ q : threadsafe_queue, q.my_global_queue.length < fuel →
      drainLoop fuel q = some (q.my_global_queue, threadsafe_queue.new) := by
  induction fuel with
  | zero => intro q h; omega
  | succ fuel ih =>
    intro q h
    obtain ⟨l⟩ := q
    cases l with
    | nil => simp [drainLoop, empty, threadsafe_queue.new]
    | cons x rest =>
      simp only [List.length_cons, Nat.add_lt_add_iff_right] at h
      simp [drainLoop, empty, pop, ih { my_global_queue := rest } h]

/-- C20: for every list of integers pushed by one thread onto an initially empty
`threadsafe_queue`: the queue then holds exactly the pushed values; after `k` pops the
first `k` values have been returned in push order, and `empty()` is true iff no pushed
value remains unpopped; the drain loop of `main` returns the pushed values in push order
and ends with `empty()` true, given fuel for one more test than there are values; and
`push` always returns, changing nothing but appending its value. -/
theorem sequential_fifo (vs : List Int) (fuel : Nat) (hfuel : vs.length < fuel) :
    (pushAll threadsafe_queue.new vs).my_global_queue = vs ∧
    (∀ k, k ≤ vs.length →
      ∃ q, popN k (pushAll threadsafe_queue.new vs) = some (vs.take k, q) ∧
        q.my_global_queue = vs.drop k ∧
        (q.empty = true ↔ k = vs.length)) ∧
    (∃ q, drainLoop fuel (pushAll threadsafe_queue.new vs) = some (vs, q) ∧
      q.empty = true) ∧
    (∀ (q : threadsafe_queue) (v : Int),
      (q.push v).my_global_queue = q.my_global_queue ++ [v]) ∧
    (∀ q : threadsafe_queue, q.empty = true ↔ q.my_global_queue = []) := by
  have hq : (pushAll threadsafe_queue.new vs).my_global_queue = vs := by
    rw [pushAll_queue]; simp [threadsafe_queue.new]
  refine ⟨hq, ?_, ?_, fun _ _ => rfl, ?_⟩
  · intro k hk
    refine ⟨{ my_global_queue := vs.drop k }, ?_, rfl, ?_⟩
    · rw [popN_eq k _ (by rw [hq]; exact hk), hq]
    · simp only [empty, List.isEmpty_iff, List.drop_eq_nil_iff]
      omega
  · refine ⟨threadsafe_queue.new, ?_, rfl⟩
    rw [drainLoop_eq fuel _ (by rw [hq]; exact hfuel), hq]
  · intro q
    simp [empty, List.isEmpty_iff]

/-- Witness for C20: the four values pushed by `thread_1_operations`. -/
theorem sequential_fifo_witness :
    [(0 : Int), 10, 20, 30].length < 5 ∧
    ∃ q, drainLoop 5 (pushAll threadsafe_queue.new [0, 10, 20, 30]) =
        some ([0, 10, 20, 30], q) ∧ q.empty = true :=
  ⟨by decide, (sequential_fifo [0, 10, 20, 30] 5 (by decide)).2.2.1⟩

end LockQueue
